import Mathlib

/-!
A verification development for the crabidy playback-queue engine
(`crabidy-server/src/lib.rs`, `QueueManager`) and the playback
orchestrator's skip-forward loop (`crabidy-server/src/playback.rs`).

The Rust code is embedded shallowly:

* `usize`/`u32` values are `Nat`.  The one place where machine
  subtraction matters (`len - 1` in `next_track` with `len = 0`) is
  modelled explicitly as a panic, matching Rust's checked (debug-profile)
  arithmetic; every other arithmetic operation in the embedded code is
  provably in range.
* Rust panics (out-of-range slice/index, `assert!` failure) are modelled
  by `Except String`: `.error` means the operation panics and there is no
  resulting state.
* `rand::seq::SliceRandom::shuffle` permutes a slice in place using the
  thread RNG.  Each shuffle call site receives an explicit oracle
  `σ : List Nat → List Nat` describing the reordering the RNG produced;
  theorems that depend on the shuffle being a permutation assume
  `IsShuffler σ`.  A claim that quantifies over the RNG is refuted by
  exhibiting one legal oracle (the identity permutation is always in the
  support of a uniform shuffle).
* `created_at : SystemTime` is dropped: it only feeds the exported
  `Queue.timestamp` and no claim mentions it.
-/

namespace Crabidy

/-- Modelled from the spec: the proto-generated `Track` value type
(`crabidy_core::proto::crabidy::Track`) is produced by `tonic_build` from
`proto/crabidy.proto`, which is not part of the sources; §3 of the spec
describes it as an immutable value with `uuid`, `title`, `artist`,
optional `album` and optional `duration` (milliseconds).  The queue code
never inspects these fields, it only moves tracks around. -/
structure Track where
  uuid : String
  title : String
  artist : String
  album : Option String
  duration : Option Nat
deriving DecidableEq, Repr

/-- An oracle for one `SliceRandom::shuffle` call: the reordering the RNG
applied to the given slice contents. -/
abbrev Shuffler := List Nat → List Nat

/-- A legal outcome of `SliceRandom::shuffle`: the output is a permutation
of the input. -/
def IsShuffler (σ : Shuffler) : Prop := ∀ l : List Nat, List.Perm (σ l) l

theorem isShuffler_id : IsShuffler id := fun l => List.Perm.refl l

/-- `struct QueueManager` (minus `created_at`, see the file comment). -/
structure QueueManager where
  current_offset : Nat
  play_order : List Nat
  tracks : List Track
  «repeat» : Bool
  shuffle : Bool
deriving DecidableEq, Repr

namespace QueueManager

/-- `QueueManager::new()`. -/
def new : QueueManager :=
  { current_offset := 0, play_order := [], tracks := [], «repeat» := false, shuffle := false }

/-- `QueueManager::current_position`. -/
def current_position (q : QueueManager) : Nat :=
  if q.current_offset < q.play_order.length then q.play_order.getD q.current_offset 0 else 0

/-- `QueueManager::current_track`: `if pos < len { Some(tracks[pos]) } else { None }`,
which is exactly the guarded lookup `tracks[pos]?`. -/
def current_track (q : QueueManager) : Option Track :=
  q.tracks[q.current_position]?

/-- `QueueManager::shuffle_all`: `self.play_order.shuffle(&mut thread_rng())`. -/
def shuffle_all (σ : Shuffler) (q : QueueManager) : QueueManager :=
  { q with play_order := σ q.play_order }

/-- `QueueManager::shuffle_before`: `self.play_order[..pos].shuffle(..)`.
The slice `[..pos]` panics when `pos > len`. -/
def shuffle_before (σ : Shuffler) (pos : Nat) (q : QueueManager) : Except String QueueManager :=
  if pos ≤ q.play_order.length then
    .ok { q with play_order := σ (q.play_order.take pos) ++ q.play_order.drop pos }
  else .error "slice index out of range"

/-- `QueueManager::shuffle_behind`: `self.play_order[pos + 1..].shuffle(..)`.
The slice `[pos+1..]` panics when `pos + 1 > len`. -/
def shuffle_behind (σ : Shuffler) (pos : Nat) (q : QueueManager) : Except String QueueManager :=
  if pos + 1 ≤ q.play_order.length then
    .ok { q with play_order := q.play_order.take (pos + 1) ++ σ (q.play_order.drop (pos + 1)) }
  else .error "slice index out of range"

/-- `QueueManager::shuffle_on`: set the flag, then shuffle the prefix
`[..current_offset]` and the suffix `[current_offset+1..]` independently. -/
def shuffle_on (σ₁ σ₂ : Shuffler) (q : QueueManager) : Except String QueueManager :=
  match shuffle_before σ₁ q.current_offset { q with shuffle := true } with
  | .error e => .error e
  | .ok q2 => shuffle_behind σ₂ q2.current_offset q2

/-- `QueueManager::shuffle_off`: reset `play_order` to the identity; note
that `current_offset` is left untouched. -/
def shuffle_off (q : QueueManager) : QueueManager :=
  { q with shuffle := false, play_order := List.range q.tracks.length }

/-- `QueueManager::next_track`.  `let len = self.tracks.len();` then the
guard `self.current_offset < len - 1` evaluates `len - 1` on `usize`,
which panics (checked arithmetic) when the queue is empty. -/
def next_track (σ : Shuffler) (q : QueueManager) :
    Except String (Option Track × QueueManager) :=
  let len := q.tracks.length
  if len = 0 then .error "attempt to subtract with overflow"
  else if q.current_offset < len - 1 then
    let q' := { q with current_offset := q.current_offset + 1 }
    let current_pos := q'.current_position
    if current_pos < len then .ok (q'.tracks[current_pos]?, q')
    else .ok (none, q')
  else if q.«repeat» then
    let q' := { q with current_offset := 0 }
    let q'' := if q'.shuffle then shuffle_all σ q' else q'
    .ok (q''.current_track, q'')
  else .ok (none, q)

/-- `QueueManager::prev_track`.  The success branch indexes
`self.tracks[self.current_position()]` without a guard. -/
def prev_track (q : QueueManager) : Except String (Option Track × QueueManager) :=
  if 0 < q.current_offset then
    let q' := { q with current_offset := q.current_offset - 1 }
    if h : q'.current_position < q'.tracks.length then
      .ok (some (q'.tracks.get ⟨q'.current_position, h⟩), q')
    else .error "index out of bounds"
  else .ok (none, q)

/-- List surrogate for `Vec::swap` on two in-range indices.  (`Vec::swap`
panics out of range; at its single call site below both indices come from
a successful `position` search, so they are in range.) -/
def listSwap (l : List Nat) (i j : Nat) : List Nat :=
  (l.set i (l.getD j 0)).set j (l.getD i 0)

/-- `QueueManager::set_current_position`.  Note that when `shuffle` is on
the whole order is re-shuffled *before* the (fallible) offset search, so
the `false` early return after a failed search leaves the shuffled order
in place; the out-of-range guard at the top, in contrast, mutates
nothing. -/
def set_current_position (σ : Shuffler) (pos : Nat) (q : QueueManager) :
    Bool × QueueManager :=
  if pos < q.tracks.length then
    let q1 := if q.shuffle then shuffle_all σ q else q
    match q1.play_order.findIdx? (fun i => i == pos) with
    | none => (false, q1)
    | some current_offset =>
      if q1.shuffle then
        (true, { q1 with play_order := listSwap q1.play_order 0 current_offset,
                         current_offset := 0 })
      else
        (true, { q1 with current_offset := current_offset })
  else (false, q)

/-- `QueueManager::replace_with_tracks`.  The success branch indexes
`self.tracks[self.current_position()]` without a guard. -/
def replace_with_tracks (σ : Shuffler) (ts : List Track) (q : QueueManager) :
    Except String (Option Track × QueueManager) :=
  let q1 := { q with current_offset := 0, tracks := ts,
                     play_order := List.range ts.length }
  let q2 := if q1.shuffle then shuffle_all σ q1 else q1
  if 0 < q2.tracks.length then
    if h : q2.current_position < q2.tracks.length then
      .ok (some (q2.tracks.get ⟨q2.current_position, h⟩), q2)
    else .error "index out of bounds"
  else .ok (none, q2)

/-- `QueueManager::append_tracks`: extend `play_order` with
`len..len+tracks.len()`, extend `tracks`, and re-shuffle the not-yet-played
suffix when shuffling. -/
def append_tracks (σ : Shuffler) (ts : List Track) (q : QueueManager) :
    Except String QueueManager :=
  let len := q.tracks.length
  let q1 := { q with play_order := q.play_order ++ List.range' len ts.length,
                     tracks := q.tracks ++ ts }
  if q1.shuffle then shuffle_behind σ q.current_offset q1 else .ok q1

/-- The loop body of `QueueManager::remove_tracks`, threading the
partially-mutated state: each early `return None` keeps the mutations made
for positions already processed.  Note the off-by-one guard
`tracks.len() < pos` (not `<=`), and that `pos` is compared with the
*current* `current_position()` of the already-mutated queue. -/
def remove_tracks_go (positions : List Nat) (play_next : Bool) (q : QueueManager) :
    Except String (Option Track × QueueManager) :=
  match positions with
  | [] => .ok (if play_next then q.current_track else none, q)
  | pos :: rest =>
    if q.tracks.length < pos then .ok (none, q)
    else
      let play_next := play_next || pos == q.current_position
      match q.play_order.findIdx? (fun i => i == pos) with
      | none => .ok (none, q)
      | some offset =>
        let co := if offset < q.current_offset then q.current_offset - 1
                  else q.current_offset
        if pos < q.tracks.length then
          remove_tracks_go rest play_next
            { q with current_offset := co,
                     tracks := q.tracks.eraseIdx pos,
                     play_order := (q.play_order.eraseIdx offset).map
                       (fun i => if pos < i then i - 1 else i) }
        else .error "Vec remove index out of bounds"

/-- `QueueManager::remove_tracks`. -/
def remove_tracks (positions : List Nat) (q : QueueManager) :
    Except String (Option Track × QueueManager) :=
  remove_tracks_go positions false q

/-- `QueueManager::insert_tracks`.  `len` is the length of the queue
*before* the insertion (the source shadows nothing: `len =
self.tracks.len()`, while the inserted batch is the `tracks` argument).
The `splice((position+1).., ..)` panics when `position + 1 > len`, and the
`assert!(changed.is_empty())` in the non-shuffle branch panics when some
already-played entry exceeds `position`. -/
def insert_tracks (σ : Shuffler) (position : Nat) (ts : List Track) (q : QueueManager) :
    Except String QueueManager :=
  let len := q.tracks.length
  if len = 0 then
    match replace_with_tracks σ ts q with
    | .ok (_, q') => .ok q'
    | .error e => .error e
  else
    let po1 := q.play_order ++ List.range' len ts.length
    if position + 1 ≤ len then
      let tracks' := q.tracks.take (position + 1) ++ ts ++ q.tracks.drop (position + 1)
      let changed := ((po1.take q.current_offset).filter
        (fun v => decide (position < v))).map (fun v => v + len)
      if ¬ q.shuffle ∧ changed ≠ [] then .error "assertion failed"
      else
        let po3 :=
          ((po1.take q.current_offset).map
            (fun v => if position < v then v + len else v)) ++
          ((po1.drop q.current_offset).map
            (fun v => if changed.contains v then v - len else v))
        let q' := { q with tracks := tracks', play_order := po3 }
        if q'.shuffle then shuffle_behind σ q.current_offset q' else .ok q'
    else .error "splice range out of bounds"

/-- `QueueManager::queue_tracks`: insert right after the current position. -/
def queue_tracks (σ : Shuffler) (ts : List Track) (q : QueueManager) :
    Except String QueueManager :=
  insert_tracks σ q.current_position ts q

/-- `QueueManager::clear`.  `play_order` is left untouched by the source. -/
def clear (exclude_current : Bool) (q : QueueManager) : Bool × QueueManager :=
  let ct := q.current_track
  let q1 := { q with current_offset := 0, tracks := [] }
  let q2 :=
    if exclude_current then
      match ct with
      | some t => { q1 with tracks := [t] }
      | none => q1
    else q1
  (!exclude_current, q2)

end QueueManager

/-- The `PlaybackMessage::ToggleShuffle` arm of `Playback::run`
(`playback.rs`): `if queue.shuffle { queue.shuffle_on() } else { queue.shuffle_off() }`. -/
def toggle_shuffle (σ₁ σ₂ : Shuffler) (q : QueueManager) : Except String QueueManager :=
  if q.shuffle then QueueManager.shuffle_on σ₁ σ₂ q
  else .ok (QueueManager.shuffle_off q)

/-- The `PlaybackMessage::ToggleRepeat` arm of `Playback::run`. -/
def toggle_repeat (q : QueueManager) : QueueManager :=
  { q with «repeat» := !q.«repeat» }

/-- A command sent to the audio-engine collaborator by the orchestrator's
playback helpers. -/
inductive EngineCmd where
  | play (url : String)
  | stop
deriving DecidableEq, Repr

/-- The `loop` inside `Playback::play_or_stop` / `Playback::play`
(`playback.rs`): resolve URLs for the current uuid; on provider failure
advance with `next_track()` and retry; when `next_track()` yields nothing,
`return` (modelled as `.ok (none, _)`).  The provider is an oracle
`getUrls`; `none` is a `ProviderError`.  The loop is not structurally
terminating (with `repeat` on and a never-succeeding provider it spins
forever), so it takes explicit fuel; running out of fuel is an `.error`,
distinct from every `.ok` result. -/
def skip_forward (getUrls : String → Option (List String)) (σ : Shuffler) :
    Nat → String → QueueManager → Except String (Option (List String) × QueueManager)
  | 0, _, _ => .error "fuel exhausted"
  | fuel + 1, uuid, q =>
    match getUrls uuid with
    | some urls => .ok (some urls, q)
    | none =>
      match QueueManager.next_track σ q with
      | .ok (some t, q') => skip_forward getUrls σ fuel t.uuid q'
      | .ok (none, q') => .ok (none, q')
      | .error e => .error e

/-- `Playback::play_or_stop`, reduced to the engine commands it issues
(the `StreamUpdate::QueueTrack` broadcast is outside the engine
interface and not modelled).  With `Some(track)` it runs the skip-forward
loop; on success it plays `urls[0]` (which would panic on an empty url
list); when the loop exhausts the queue it does a bare `return`, issuing
no command.  Only with `None` does it call `player.stop()`. -/
def play_or_stop (getUrls : String → Option (List String)) (σ : Shuffler)
    (fuel : Nat) (t? : Option Track) (q : QueueManager) :
    Except String (List EngineCmd × QueueManager) :=
  match t? with
  | some t =>
    match skip_forward getUrls σ fuel t.uuid q with
    | .ok (some urls, q') =>
      match urls with
      | [] => .error "index out of bounds"
      | u :: _ => .ok ([EngineCmd.play u], q')
    | .ok (none, q') => .ok ([], q')
    | .error e => .error e
  | none => .ok ([EngineCmd.stop], q)

/-! ## Concrete fixtures for the scenario claims -/

def tA : Track := ⟨"track:a", "a", "", none, none⟩
def tB : Track := ⟨"track:b", "b", "", none, none⟩
def tC : Track := ⟨"track:c", "c", "", none, none⟩
def tD : Track := ⟨"track:d", "d", "", none, none⟩
def tX : Track := ⟨"track:x", "x", "", none, none⟩

/-- Scenario B state: queue `[a,b,c]`, shuffle off, current at `b` (offset 1). -/
def qB : QueueManager := ⟨1, [0, 1, 2], [tA, tB, tC], false, false⟩

/-- A shuffled two-track state: `play_order = [1,0]`, offset 1 (current is `a`). -/
def q3 : QueueManager := ⟨1, [1, 0], [tA, tB], false, true⟩

/-- Scenario C state: queue `[a,b,c,d]`, shuffle off, current at `c` (position 2). -/
def qC : QueueManager := ⟨2, [0, 1, 2, 3], [tA, tB, tC, tD], false, false⟩

/-- Scenario A state after `replace_with_tracks([a,b,c])`. -/
def qS : QueueManager := ⟨0, [0, 1, 2], [tA, tB, tC], false, false⟩

/-- Scenario A state after `set_current_position(2)`. -/
def qS2 : QueueManager := ⟨2, [0, 1, 2], [tA, tB, tC], false, false⟩

/-- A one-track queue, current at offset 0 (for the skip-forward claim). -/
def qOne : QueueManager := ⟨0, [0], [tA], false, false⟩

/-- A five-track shuffled state with `current_offset = 2` (Scenario E shape). -/
def qE : QueueManager := ⟨2, [4, 3, 0, 1, 2], [tA, tB, tC, tD, tX], false, true⟩

/-! ## Helper lemmas -/

theorem shuffle_before_eq_ok {σ : Shuffler} {p : Nat} {q q' : QueueManager}
    (h : QueueManager.shuffle_before σ p q = .ok q') :
    q' = { q with play_order := σ (q.play_order.take p) ++ q.play_order.drop p } ∧
      p ≤ q.play_order.length := by
  unfold QueueManager.shuffle_before at h
  split at h
  · exact ⟨by injection h with h1; exact h1.symm, by assumption⟩
  · exact Except.noConfusion h

theorem shuffle_behind_eq_ok {σ : Shuffler} {p : Nat} {q q' : QueueManager}
    (h : QueueManager.shuffle_behind σ p q = .ok q') :
    q' = { q with play_order :=
            q.play_order.take (p + 1) ++ σ (q.play_order.drop (p + 1)) } ∧
      p + 1 ≤ q.play_order.length := by
  unfold QueueManager.shuffle_behind at h
  split at h
  · exact ⟨by injection h with h1; exact h1.symm, by assumption⟩
  · exact Except.noConfusion h

/-! ## Claim theorems -/

/-- C1: `clear` violates the permutation invariant: after
`replace_with_tracks([a])` followed by `clear(false)`, `tracks` is empty
but `play_order` is still `[0]`, which is not a permutation of `0..0`
(the source's `clear` resets `current_offset` and `tracks` but never
touches `play_order`). -/
theorem clear_leaves_stale_play_order :
    QueueManager.replace_with_tracks id [tA] QueueManager.new =
      .ok (some tA, ⟨0, [0], [tA], false, false⟩) ∧
    QueueManager.clear false ⟨0, [0], [tA], false, false⟩ =
      (true, ⟨0, [0], [], false, false⟩) ∧
    ¬ List.Perm (QueueManager.mk 0 [0] [] false false).play_order
        (List.range (QueueManager.mk 0 [0] [] false false).tracks.length) := by
  refine ⟨rfl, rfl, ?_⟩
  decide

/-- C2 (counterexample): on queue `[a,b,c]` with shuffle off and current
track `b` (offset 1), `insert_tracks(0, [x])` produces tracks
`[a,x,b,c]` as claimed, but `current_track()` returns `x`, not `b`: the
insert leaves `current_offset` and `play_order` unchanged, so the
now-playing pointer lands on the inserted track. -/
theorem insert_before_current_changes_current_track :
    QueueManager.insert_tracks id 0 [tX] qB =
      .ok ⟨1, [0, 1, 2, 3], [tA, tX, tB, tC], false, false⟩ ∧
    QueueManager.current_track ⟨1, [0, 1, 2, 3], [tA, tX, tB, tC], false, false⟩ =
      some tX ∧
    tX ≠ tB := by
  refine ⟨rfl, rfl, ?_⟩
  decide

/-- C2 (amended): `insert_tracks(0, [x])` on queue `[a,b,c]` with shuffle
off and current offset 1 yields tracks `[a,x,b,c]` with `play_order`
extended to the identity `[0,1,2,3]` and `current_offset` still 1, so
`current_track()` is `x`, the first inserted track. -/
theorem insert_scenarioB_amended :
    QueueManager.insert_tracks id 0 [tX] qB =
      .ok ⟨1, [0, 1, 2, 3], [tA, tX, tB, tC], false, false⟩ ∧
    QueueManager.current_track ⟨1, [0, 1, 2, 3], [tA, tX, tB, tC], false, false⟩ =
      some tX :=
  ⟨rfl, rfl⟩

/-- C3 (counterexample): from the state with tracks `[a,b]`,
`play_order = [1,0]`, `current_offset = 1` (current track `a`),
`shuffle_on()` (with the identity permutation as the RNG outcome, which a
uniform shuffle can produce) keeps the current track `a`, but the
following `shuffle_off()` makes `current_track()` return `b`:
`shuffle_off` resets `play_order` to the identity without relocating
`current_offset`. -/
theorem shuffle_toggle_changes_current_track :
    QueueManager.shuffle_on id id q3 = .ok q3 ∧
    QueueManager.current_track q3 = some tA ∧
    QueueManager.current_track (QueueManager.shuffle_off q3) = some tB ∧
    tA ≠ tB := by
  refine ⟨rfl, rfl, rfl, ?_⟩
  decide

/-- C4: the claim "every public operation on the empty queue returns
none/false and never panics" fails: `shuffle_on()` on the empty queue
panics (the suffix shuffle slices `play_order[0 + 1..]` of an empty
vector), and `next_track()` evaluates `len - 1` on `usize` zero, an
arithmetic-overflow panic under Rust's checked (debug) arithmetic. -/
theorem shuffle_on_empty_queue_panics :
    QueueManager.shuffle_on id id QueueManager.new = .error "slice index out of range" ∧
    QueueManager.next_track id QueueManager.new =
      .error "attempt to subtract with overflow" :=
  ⟨rfl, rfl⟩

/-- C5: the `ToggleShuffle` handler never changes the shuffle flag: it
calls `shuffle_on()` (which sets the flag to `true`) exactly when the
flag is already `true`, and `shuffle_off()` (which sets it to `false`)
exactly when it is already `false`. -/
theorem toggle_shuffle_preserves_flag (σ₁ σ₂ : Shuffler) (q q' : QueueManager)
    (h : toggle_shuffle σ₁ σ₂ q = .ok q') : q'.shuffle = q.shuffle := by
  unfold toggle_shuffle at h
  split at h
  · next hq =>
    unfold QueueManager.shuffle_on at h
    cases hb : QueueManager.shuffle_before σ₁ q.current_offset { q with shuffle := true } with
    | error e => rw [hb] at h; exact Except.noConfusion h
    | ok q2 =>
      rw [hb] at h
      obtain ⟨hq2, -⟩ := shuffle_before_eq_ok hb
      obtain ⟨hq', -⟩ := shuffle_behind_eq_ok h
      subst hq2
      subst hq'
      simpa using hq.symm
  · next hq =>
    injection h with h1
    subst h1
    have : q.shuffle = false := (Bool.not_eq_true _).mp hq
    simp [QueueManager.shuffle_off, this]

/-- C5 witness: on the initial state (shuffle off) the handler takes the
`shuffle_off` branch and the flag is unchanged. -/
theorem toggle_shuffle_preserves_flag_witness :
    (QueueManager.shuffle_off QueueManager.new).shuffle = QueueManager.new.shuffle :=
  toggle_shuffle_preserves_flag id id QueueManager.new
    (QueueManager.shuffle_off QueueManager.new) rfl

/-- C6 (counterexample): on queue `[a,b,c,d]` with shuffle off and
current track `c` (position 2), `remove_tracks([0,2])` leaves tracks
`[b,c]` — not `[b,d]` — and returns `none`, not a track: after removing
position 0 everything shifts down, so position 2 now denotes `d`, and it
is compared against the *post-shift* current position (1), so the removal
of the original current track's position is never detected. -/
theorem remove_tracks_scenarioC_counterexample :
    QueueManager.remove_tracks [0, 2] qC =
      .ok (none, ⟨1, [0, 1], [tB, tC], false, false⟩) ∧
    tC ≠ tD := by
  refine ⟨rfl, ?_⟩
  decide

/-- C6 (amended): `remove_tracks` interprets each listed position against
the queue as already mutated by the earlier removals of the same call:
`remove_tracks([0,2])` on `[a,b,c,d]` (current `c`) removes `a` and then
`d`, leaving `[b,c]` with the current track still `c`, and returns `none`
because no processed position matched the current position at its
processing step. -/
theorem remove_tracks_scenarioC_amended :
    QueueManager.remove_tracks [0, 2] qC =
      .ok (none, ⟨1, [0, 1], [tB, tC], false, false⟩) ∧
    QueueManager.current_track ⟨1, [0, 1], [tB, tC], false, false⟩ = some tC :=
  ⟨rfl, rfl⟩

/-- C7 (counterexample): with a one-track queue (repeat off) and a
provider that fails every URL resolution, the skip-forward loop exhausts
the queue and `play_or_stop` returns having issued *no* engine command at
all — in particular no `stop` — contradicting the claim that exhaustion
leads to a stop instruction. -/
theorem skip_forward_exhaustion_issues_no_stop :
    play_or_stop (fun _ => none) id 5 (some tA) qOne = .ok ([], qOne) ∧
    EngineCmd.stop ∉ ([] : List EngineCmd) := by
  refine ⟨rfl, ?_⟩
  simp

/-- C7 (amended): `play_or_stop` instructs the engine to stop exactly
when it is handed no track at all (`next_track`/`prev_track` already
returned none): handed `none` it issues precisely `[stop]`; handed some
track it never issues a stop, whatever the provider, the RNG, the fuel
and the state do; and whenever the skip-forward loop itself exhausts the
queue after URL failures, it returns without issuing any engine command
at all. -/
theorem play_or_stop_stop_only_without_track :
    (∀ (getUrls : String → Option (List String)) (σ : Shuffler) (fuel : Nat)
      (q : QueueManager),
      play_or_stop getUrls σ fuel none q = .ok ([EngineCmd.stop], q)) ∧
    (∀ (getUrls : String → Option (List String)) (σ : Shuffler) (fuel : Nat)
      (t : Track) (q : QueueManager) (cmds : List EngineCmd) (q' : QueueManager),
      play_or_stop getUrls σ fuel (some t) q = .ok (cmds, q') →
        EngineCmd.stop ∉ cmds) ∧
    (∀ (getUrls : String → Option (List String)) (σ : Shuffler) (fuel : Nat)
      (t : Track) (q : QueueManager) (q' : QueueManager),
      skip_forward getUrls σ fuel t.uuid q = .ok (none, q') →
        play_or_stop getUrls σ fuel (some t) q = .ok ([], q')) := by
  refine ⟨fun _ _ _ _ => rfl, ?_, ?_⟩
  · intro getUrls σ fuel t q cmds q' heq
    simp only [play_or_stop] at heq
    split at heq
    · split at heq
      · exact Except.noConfusion heq
      · injection heq with h1
        injection h1 with hc hq
        subst hc
        simp
    · injection heq with h1
      injection h1 with hc hq
      subst hc
      simp
    · exact Except.noConfusion heq
  · intro getUrls σ fuel t q q' h
    simp only [play_or_stop]
    rw [h]

/-- C7 (amended) witness: with a one-track queue and an always-failing
provider: handed `none` the helper issues `[stop]`; handed track `a` it
exhausts the queue and issues nothing. -/
theorem play_or_stop_stop_only_without_track_witness :
    play_or_stop (fun _ => none) id 5 none qOne = .ok ([EngineCmd.stop], qOne) ∧
    EngineCmd.stop ∉ ([] : List EngineCmd) ∧
    play_or_stop (fun _ => none) id 5 (some tA) qOne = .ok ([], qOne) :=
  ⟨play_or_stop_stop_only_without_track.1 (fun _ => none) id 5 qOne,
   play_or_stop_stop_only_without_track.2.1 (fun _ => none) id 5 tA qOne [] qOne rfl,
   play_or_stop_stop_only_without_track.2.2 (fun _ => none) id 5 tA qOne qOne rfl⟩

/-- C8: `set_current_position(pos)` with `pos >= tracks.len()` returns
`false` and leaves the whole state unchanged (the out-of-range guard is
the first thing the function checks). -/
theorem set_current_position_out_of_range (σ : Shuffler) (pos : Nat)
    (q : QueueManager) (h : q.tracks.length ≤ pos) :
    QueueManager.set_current_position σ pos q = (false, q) := by
  unfold QueueManager.set_current_position
  rw [if_neg (by omega)]

/-- C8 witness: position 5 on the three-track Scenario-B state. -/
theorem set_current_position_out_of_range_witness :
    qB.tracks.length ≤ 5 ∧
    QueueManager.set_current_position id 5 qB = (false, qB) :=
  ⟨by decide, set_current_position_out_of_range id 5 qB (by decide)⟩

/-- The middle element of a play order whose prefix of length `co` was
replaced by `A` and whose tail beyond `co + 1` was replaced by `S`. -/
theorem getD_mid_helper (A D S : List Nat) (co : Nat) (hA : A.length = co)
    (hD : 0 < D.length) :
    ((A ++ D).take (co + 1) ++ S).getD co 0 = D.getD 0 0 := by
  have h1 : co < ((A ++ D).take (co + 1)).length := by
    rw [List.length_take, List.length_append, hA]
    omega
  rw [List.getD_append _ _ _ _ h1, List.getD_eq_getElem?_getD, List.getElem?_take,
    if_pos (Nat.lt_succ_self co), List.getElem?_append_right (by omega : A.length ≤ co),
    hA, Nat.sub_self, ← List.getD_eq_getElem?_getD]

/-- C3 (amended): `shuffle_on()` keeps `current_track()` unchanged (it
permutes only the entries strictly before and strictly after
`current_offset`), but the following `shuffle_off()` resets `play_order`
to the identity *without* relocating `current_offset`, so afterwards the
current track is whichever track sits at position `current_offset`; the
original current track is recovered only when
`play_order[current_offset] = current_offset`. -/
theorem shuffle_on_off_amended (q q₁ : QueueManager) (σ₁ σ₂ : Shuffler)
    (hσ₁ : IsShuffler σ₁)
    (hco : q.current_offset < q.play_order.length)
    (hlen : q.play_order.length = q.tracks.length)
    (heq : QueueManager.shuffle_on σ₁ σ₂ q = .ok q₁) :
    q₁.current_track = q.current_track ∧
    (QueueManager.shuffle_off q₁).current_track = q.tracks[q.current_offset]? := by
  have hb : QueueManager.shuffle_before σ₁ q.current_offset { q with shuffle := true } =
      .ok { q with shuffle := true,
                   play_order := σ₁ (q.play_order.take q.current_offset) ++
                     q.play_order.drop q.current_offset } := by
    unfold QueueManager.shuffle_before
    rw [if_pos (Nat.le_of_lt hco)]
  unfold QueueManager.shuffle_on at heq
  rw [hb] at heq
  obtain ⟨hq₁, hguard⟩ := shuffle_behind_eq_ok heq
  have lA : (σ₁ (q.play_order.take q.current_offset)).length = q.current_offset := by
    rw [(hσ₁ _).length_eq, List.length_take]
    exact min_eq_left (Nat.le_of_lt hco)
  have lD : 0 < (q.play_order.drop q.current_offset).length := by
    rw [List.length_drop]; omega
  constructor
  · subst hq₁
    unfold QueueManager.current_track QueueManager.current_position
    simp only []
    have hg1 : q.current_offset <
        (((σ₁ (q.play_order.take q.current_offset) ++
            q.play_order.drop q.current_offset).take (q.current_offset + 1)) ++
          σ₂ ((σ₁ (q.play_order.take q.current_offset) ++
            q.play_order.drop q.current_offset).drop (q.current_offset + 1))).length := by
      rw [List.length_append, List.length_take, List.length_append, lA, List.length_drop]
      omega
    rw [if_pos hg1, if_pos hco]
    congr 1
    rw [getD_mid_helper _ _ _ _ lA lD, List.getD_eq_getElem?_getD, List.getElem?_drop,
      Nat.add_zero, ← List.getD_eq_getElem?_getD]
  · subst hq₁
    unfold QueueManager.shuffle_off QueueManager.current_track QueueManager.current_position
    simp only []
    have hco' : q.current_offset < q.tracks.length := hlen ▸ hco
    rw [if_pos (by simpa using hco')]
    rw [List.getD_eq_getElem _ _ (by simpa using hco'), List.getElem_range]

/-- C3 (amended) witness: the two-track state `q3` with the identity
shuffle outcome: the pair of toggles lands on `tracks[1] = b`. -/
theorem shuffle_on_off_amended_witness :
    IsShuffler (id : Shuffler) ∧
    q3.current_offset < q3.play_order.length ∧
    q3.play_order.length = q3.tracks.length ∧
    (q3.current_track = q3.current_track ∧
      (QueueManager.shuffle_off q3).current_track = q3.tracks[q3.current_offset]?) :=
  ⟨isShuffler_id, by decide, by decide,
    shuffle_on_off_amended q3 q3 id id isShuffler_id (by decide) (by decide) rfl⟩

/-- C9: with shuffle on, `append_tracks` re-shuffles only the suffix of
`play_order` strictly after `current_offset`: the already-played-or-current
prefix `play_order[..=current_offset]` is unchanged element-for-element
(for any RNG outcome whatsoever). -/
theorem append_tracks_preserves_played_prefix (σ : Shuffler) (ts : List Track)
    (q q' : QueueManager) (hs : q.shuffle = true)
    (hco : q.current_offset < q.play_order.length)
    (heq : QueueManager.append_tracks σ ts q = .ok q') :
    q'.play_order.take (q.current_offset + 1) =
      q.play_order.take (q.current_offset + 1) := by
  unfold QueueManager.append_tracks at heq
  simp only [hs, if_true] at heq
  obtain ⟨hq', hg⟩ := shuffle_behind_eq_ok heq
  subst hq'
  simp only []
  rw [List.take_append_of_le_length
      (by rw [List.length_take, List.length_append]; omega),
    List.take_take, Nat.min_self,
    List.take_append_of_le_length (by omega)]

/-- C9 witness: the five-track shuffled state `qE` with `[a]` appended and
the identity RNG outcome: the first three play-order entries survive. -/
theorem append_tracks_preserves_played_prefix_witness :
    qE.shuffle = true ∧
    qE.current_offset < qE.play_order.length ∧
    (QueueManager.mk 2 [4, 3, 0, 1, 2, 5] [tA, tB, tC, tD, tX, tA] false
        true).play_order.take (qE.current_offset + 1) =
      qE.play_order.take (qE.current_offset + 1) :=
  ⟨rfl, by decide,
    append_tracks_preserves_played_prefix id [tA] qE
      (QueueManager.mk 2 [4, 3, 0, 1, 2, 5] [tA, tB, tC, tD, tX, tA] false true)
      rfl (by decide) rfl⟩

/-- C10: Scenario A: on queue `[a,b,c]` with shuffle and repeat off,
`set_current_position(2)` succeeds and the current track is `c`;
`next_track()` then returns none leaving the state unchanged; after
toggling repeat on, `next_track()` wraps to offset 0 and returns `a`. -/
theorem scenarioA_set_next_repeat :
    QueueManager.replace_with_tracks id [tA, tB, tC] QueueManager.new = .ok (some tA, qS) ∧
    QueueManager.set_current_position id 2 qS = (true, qS2) ∧
    QueueManager.current_track qS2 = some tC ∧
    QueueManager.next_track id qS2 = .ok (none, qS2) ∧
    QueueManager.next_track id (toggle_repeat qS2) =
      .ok (some tA, ⟨0, [0, 1, 2], [tA, tB, tC], true, false⟩) :=
  ⟨rfl, rfl, rfl, rfl, rfl⟩

end Crabidy
